import Mathlib

/-!
Verification of the uprintf formatting engine (single-header C library).

The development shallowly embeds the core of `uprintf.h`:
strings are `List Char`, the variadic argument list is a `List UArg`,
the output sink is modelled by the list of characters emitted, and the
`%n` side effect is modelled by the list of values stored through the
supplied `int*` arguments.  Machine integers are modelled as `Int`/`Nat`
with explicit wrapping casts where the C code converts between widths;
C `double` is modelled by `UDouble` (NaN, the two infinities, or a
finite rational), mirroring the three special-value tests that
`u_ftoa` performs before doing arithmetic.
-/

namespace Uprintf

/-- `UPRINTF_BUFFER_SIZE` configuration constant (default build value). -/
def UPRINTF_BUFFER_SIZE : Nat := 32

/-- `UPRINTF_MAX_HANDLERS` configuration constant (default build value). -/
def UPRINTF_MAX_HANDLERS : Nat := 16

/-- Two's-complement reinterpretation of an integer at a given bit width,
mirroring C casts such as `(signed char)v` (8), `(short)v` (16),
`int` (32) and the 64-bit signed types. -/
def signedCast (bits : Nat) (v : Int) : Int :=
  (v + 2 ^ (bits - 1)) % 2 ^ bits - 2 ^ (bits - 1)

/-- Model of C `double` for the float-to-text conversion.  `u_ftoa`
classifies its input by `value != value` (NaN), `value == 1.0/0.0`
(+Inf) and `value == -1.0/0.0` (-Inf) before any arithmetic; every
other double is a finite value, modelled by a rational. -/
inductive UDouble where
  | nan
  | posInf
  | negInf
  | finite (q : ℚ)
deriving DecidableEq

/-- Sign test `value < 0` on the `UDouble` model (NaN compares false). -/
def UDouble.isNeg : UDouble → Bool
  | .nan => false
  | .posInf => false
  | .negInf => true
  | .finite q => decide (q < 0)

/-- Truncation toward zero, mirroring the C cast `(int64_t)value` /
`(int)value` applied to a double. -/
def ratTrunc (q : ℚ) : Int :=
  if q < 0 then -(⌊-q⌋) else ⌊q⌋

/-- One digit character, `digit < 10 ? '0' + digit : ('a'|'A') + digit - 10`
(from `u_utoa`). -/
def digitChar (uppercase : Bool) (d : Nat) : Char :=
  if d < 10 then Char.ofNat ('0'.toNat + d)
  else Char.ofNat ((if uppercase then 'A' else 'a').toNat + d - 10)

/-- The digit-emission do-while loop of `u_utoa`, producing digits
least-significant first.  The loop runs while `value` stays nonzero and
`value` strictly decreases each round (base is at least 2 at every call
site), so `value + 1` units of fuel always suffice. -/
def utoaGo (base : Nat) (uppercase : Bool) : Nat → Nat → List Char
  | 0, _ => []
  | fuel + 1, value =>
      let c := digitChar uppercase (value % base)
      if value / base = 0 then [c]
      else c :: utoaGo base uppercase fuel (value / base)

/-- `u_utoa`: unsigned integer to text in base 2..36; an out-of-range
base yields the empty string.  Digits are produced least-significant
first and then reversed in place. -/
def u_utoa (value : Nat) (base : Nat) (uppercase : Bool) : List Char :=
  if 2 ≤ base ∧ base ≤ 36 then (utoaGo base uppercase (value + 1) value).reverse
  else []

/-- `u_itoa`: signed integer to text.  For base 10 a negative value is
negated and prefixed with `-`; otherwise the value is reinterpreted as
`uint64_t` (two's complement) and handed to `u_utoa`. -/
def u_itoa (value : Int) (base : Nat) (uppercase : Bool) : List Char :=
  if ¬(2 ≤ base ∧ base ≤ 36) then []
  else if value < 0 ∧ base = 10 then '-' :: u_utoa (-value).toNat base uppercase
  else u_utoa ((value % (2 ^ 64 : Int)).toNat) base uppercase

/-- The two sequential precision clamps at the top of `u_ftoa`:
a negative precision defaults to 6, then precision is capped at
`UPRINTF_BUFFER_SIZE - 16`. -/
def ftoaClampPrec (precision : Int) : Int :=
  let p := if precision < 0 then 6 else precision
  if p > (UPRINTF_BUFFER_SIZE : Int) - 16 then (UPRINTF_BUFFER_SIZE : Int) - 16 else p

/-- The fractional-digit loop of `u_ftoa`.  `len` is the number of
characters already in the buffer (`ptr - str`); each round multiplies by
10, truncates a digit, emits it, and then breaks if the buffer position
has reached `UPRINTF_BUFFER_SIZE - 1`.  The value stays nonnegative
throughout, so the `(int)` cast is plain truncation. -/
def fracLoop : Nat → ℚ → Nat → List Char
  | 0, _, _ => []
  | i + 1, v, len =>
      let v10 := v * 10
      let digit := ratTrunc v10
      let c := Char.ofNat ('0'.toNat + digit.toNat)
      if len + 1 ≥ UPRINTF_BUFFER_SIZE - 1 then [c]
      else c :: fracLoop i (v10 - digit) (len + 1)

/-- `u_ftoa`: fixed-point double to text.  Special values first
(`nan`, `inf`, `-inf`), then sign, integer part via `u_itoa`, decimal
point and rounded fractional digits.  The C rounding term is
`0.5` divided by 10 `precision` times; it is modelled by the exact
rational `1 / (2 * 10 ^ precision)`. -/
def u_ftoa (value : UDouble) (precision0 : Int) (decimalPoint : Char) : List Char :=
  let precision := ftoaClampPrec precision0
  match value with
  | .nan => ['n', 'a', 'n']
  | .posInf => ['i', 'n', 'f']
  | .negInf => ['-', 'i', 'n', 'f']
  | .finite q0 =>
      let sgn : List Char := if q0 < 0 then ['-'] else []
      let q : ℚ := if q0 < 0 then -q0 else q0
      let intPart : Int := ratTrunc q
      let frac : ℚ := q - (intPart : ℚ)
      let head := sgn ++ u_itoa intPart 10 false
      if 0 < precision then
        let head2 := head ++ [decimalPoint]
        head2 ++ fracLoop precision.toNat (frac + 1 / (2 * 10 ^ precision.toNat)) head2.length
      else head

/-- One cell of the variadic argument list.  Each constructor carries
the value the caller pushed: a signed integer (any of the signed C
integer types), an unsigned integer, a (possibly null) string, a
double, an `int*` destination for `%n` (only its null-ness matters for
the model, together with the recorded store), or a `void*` for `%p`. -/
inductive UArg where
  | int (v : Int)
  | uint (v : Nat)
  | str (s : Option (List Char))
  | doub (d : UDouble)
  | ptrI (nonnull : Bool)
  | ptr (addr : Nat)
deriving DecidableEq

/-- Result of a custom format handler: the characters it emitted
through the sink, its `int` return value (the engine trusts it as the
count of characters written), and how many characters of format text /
how many arguments it consumed through the by-reference cursors. -/
structure HandlerOut where
  out : List Char
  ret : Int
  fmtConsumed : Nat
  argsConsumed : Nat

/-- A custom format handler (`u_format_handler_t`): it receives the
format cursor positioned just past the specifier character and the live
argument list. -/
def HandlerFn := List Char → List UArg → HandlerOut

/-- One slot of the handler table; a zero specifier marks an empty
slot, a null handler pointer is `none`. -/
structure Slot where
  specifier : Char
  handler : Option HandlerFn

/-- Process-wide state used by the core engine: decimal point,
runtime float-support flag, and the custom-handler table. -/
structure GState where
  decimalPoint : Char
  floatSupport : Bool
  handlers : List Slot

/-- The table as initialized at program start: `UPRINTF_MAX_HANDLERS`
empty slots. -/
def table0 : List Slot := List.replicate UPRINTF_MAX_HANDLERS ⟨Char.ofNat 0, none⟩

/-- The process-wide state as initialized at program start. -/
def gs0 : GState := ⟨'.', true, table0⟩

/-- Scan loop of `u_register_format_handler`: store into the first
slot whose specifier is zero (empty) or already equals the given
specifier; returns the updated table and the C return value. -/
def registerGo (c : Char) (hf : HandlerFn) : List Slot → List Slot × Int
  | [] => ([], -1)
  | s :: rest =>
      if s.specifier = Char.ofNat 0 ∨ s.specifier = c then (⟨c, some hf⟩ :: rest, 0)
      else
        let r := registerGo c hf rest
        (s :: r.1, r.2)

/-- `u_register_format_handler`: a null handler is rejected with -1,
otherwise the table scan runs; -1 when the table is full. -/
def u_register_format_handler (c : Char) (h : Option HandlerFn) (t : List Slot) :
    List Slot × Int :=
  match h with
  | none => (t, -1)
  | some hf => registerGo c hf t

/-- `u_unregister_format_handler`: clear the first slot holding the
given specifier; -1 when no slot matches. -/
def u_unregister_format_handler (c : Char) : List Slot → List Slot × Int
  | [] => ([], -1)
  | s :: rest =>
      if s.specifier = c then (⟨Char.ofNat 0, none⟩ :: rest, 0)
      else
        let r := u_unregister_format_handler c rest
        (s :: r.1, r.2)

/-- The handler lookup loop in `u_parse_format`: the first slot whose
specifier matches and whose handler pointer is non-null. -/
def findHandler : List Slot → Char → Option HandlerFn
  | [], _ => none
  | s :: rest, c =>
      if s.specifier = c ∧ s.handler.isSome then s.handler else findHandler rest c

/-- Read the next argument as a C `int` (`va_arg(*args, int)`); a slot
of the wrong kind or a missing argument is undefined behaviour in C and
is modelled as the value 0 (one slot is still consumed). -/
def readIntArg : List UArg → Int × List UArg
  | .int v :: r => (v, r)
  | _ :: r => (0, r)
  | [] => (0, [])

/-- Read the next argument as an unsigned C integer. -/
def readUintArg : List UArg → Nat × List UArg
  | .uint v :: r => (v, r)
  | _ :: r => (0, r)
  | [] => (0, [])

/-- Read the next argument as a `const char*`. -/
def readStrArg : List UArg → Option (List Char) × List UArg
  | .str s :: r => (s, r)
  | _ :: r => (none, r)
  | [] => (none, [])

/-- Read the next argument as a `double`. -/
def readDoubleArg : List UArg → UDouble × List UArg
  | .doub d :: r => (d, r)
  | _ :: r => (.finite 0, r)
  | [] => (.finite 0, [])

/-- Read the next argument as an `int*` (for `%n`). -/
def readPtrIArg : List UArg → Bool × List UArg
  | .ptrI b :: r => (b, r)
  | _ :: r => (false, r)
  | [] => (false, [])

/-- Read the next argument as a `void*` (for `%p`). -/
def readPtrArg : List UArg → Nat × List UArg
  | .ptr a :: r => (a, r)
  | _ :: r => (0, r)
  | [] => (0, [])

/-- The parsed per-specifier state of `u_parse_format`
(`U_FLAG_*` bits; the uppercase bit is never set by the parser and is
omitted). -/
structure Flags where
  leftAlign : Bool := false
  forceSign : Bool := false
  spaceSign : Bool := false
  zeroPad : Bool := false
  altForm : Bool := false
  widthArg : Bool := false
  precArg : Bool := false
deriving DecidableEq

/-- The flag-consumption loop: `- + space 0 #` each set a bit. -/
def parseFlags (fl : Flags) : List Char → Flags × List Char
  | [] => (fl, [])
  | c :: rest =>
      if c = '-' then parseFlags { fl with leftAlign := true } rest
      else if c = '+' then parseFlags { fl with forceSign := true } rest
      else if c = ' ' then parseFlags { fl with spaceSign := true } rest
      else if c = '0' then parseFlags { fl with zeroPad := true } rest
      else if c = '#' then parseFlags { fl with altForm := true } rest
      else (fl, c :: rest)

/-- The decimal-literal accumulation loop used for width and precision
(`acc = acc * 10 + digit`). -/
def digitLoop (acc : Int) : List Char → Int × List Char
  | [] => (acc, [])
  | c :: rest =>
      if '0' ≤ c ∧ c ≤ '9' then digitLoop (acc * 10 + ((c.toNat : Int) - ('0'.toNat : Int))) rest
      else (acc, c :: rest)

/-- Width parsing: `*` takes an `int` argument and sets the
width-from-argument flag; otherwise a decimal literal is read and a
resulting value of 0 is replaced by the "unspecified" sentinel -1. -/
def parseWidth (fl : Flags) (fmt : List Char) (args : List UArg) :
    Flags × Int × List Char × List UArg :=
  match fmt with
  | '*' :: rest =>
      ({ fl with widthArg := true }, signedCast 32 (readIntArg args).1, rest, (readIntArg args).2)
  | _ =>
      let dw := digitLoop 0 fmt
      (fl, if dw.1 = 0 then -1 else dw.1, dw.2, args)

/-- Precision parsing: optional, introduced by `.`; `*` takes an `int`
argument, otherwise a decimal literal (an absent literal after `.`
means precision 0).  Without a `.` the precision stays -1. -/
def parsePrec (fl : Flags) (fmt : List Char) (args : List UArg) :
    Flags × Int × List Char × List UArg :=
  match fmt with
  | '.' :: '*' :: rest2 =>
      ({ fl with precArg := true }, signedCast 32 (readIntArg args).1, rest2, (readIntArg args).2)
  | '.' :: rest =>
      let dp := digitLoop 0 rest
      (fl, dp.1, dp.2, args)
  | _ => (fl, -1, fmt, args)

/-- Length-modifier parsing; the encoding matches the C code:
`hh` -2, `h` -1, none 0, `l` 1, `ll` 2, `z` 3, `t` 4, `j` 5. -/
def parseLen : List Char → Int × List Char
  | 'h' :: 'h' :: rest => (-2, rest)
  | 'h' :: rest => (-1, rest)
  | 'l' :: 'l' :: rest => (2, rest)
  | 'l' :: rest => (1, rest)
  | 'z' :: rest => (3, rest)
  | 't' :: rest => (4, rest)
  | 'j' :: rest => (5, rest)
  | fmt => (0, fmt)

/-- All parsed modifiers of one `%`-sequence together with the
remaining format text and argument list. -/
structure Mods where
  flags : Flags
  width : Int
  precision : Int
  lm : Int
  rest : List Char
  args : List UArg

/-- The modifier-parsing pipeline of `u_parse_format`: flags, width,
precision, length modifier, in that order. -/
def parseMods (fmt : List Char) (args : List UArg) : Mods :=
  let pf := parseFlags {} fmt
  let pw := parseWidth pf.1 pf.2 args
  let pp := parsePrec pw.1 pw.2.2.1 pw.2.2.2
  let pl := parseLen pp.2.2.1
  ⟨pp.1, pw.2.1, pp.2.1, pl.1, pl.2, pp.2.2.2⟩

/-- `u_output_str`: emit at most `maxLen` characters of a string (a
negative `maxLen` means no limit).  Model strings carry no embedded
NUL, so the NUL-stop of the C loop is the end of the list. -/
def u_output_str (s : List Char) (maxLen : Int) : List Char :=
  if maxLen < 0 then s else s.take maxLen.toNat

/-- The shared numeric tail of `u_parse_format` (the `if (number)`
block): computes sign length, space padding and zero padding and emits
`[left space pad][forced sign][zero pad][buffer][right space pad]`,
returning the emitted characters and the amount added to
`chars_written`.  When `sign` is true the minus sign is already the
first character of `buf` (written by `u_itoa`/`u_ftoa`) and no separate
sign character is emitted.  `numericPads` is the padding computation of
that block: it returns the final (zero-padding, space-padding) pair. -/
def numericPads (fl : Flags) (width precision numDigits signLen : Int) : Int × Int :=
  let totalLen0 := numDigits + signLen
  let padding0 : Int := if width > totalLen0 then width - totalLen0 else 0
  let zpPad : Int × Int :=
    if precision > numDigits then
      let zp := precision - numDigits
      (zp, if width > totalLen0 + zp then width - (totalLen0 + zp) else 0)
    else (0, padding0)
  if fl.zeroPad ∧ ¬fl.leftAlign ∧ precision < 0 then (zpPad.1 + zpPad.2, 0) else zpPad

def numericOut (fl : Flags) (width precision : Int) (buf : List Char) (sign : Bool) :
    List Char × Int :=
  let numDigits : Int := buf.length
  let signLen : Int := if sign then 1 else if fl.forceSign then 1 else if fl.spaceSign then 1 else 0
  let zeroPadding := (numericPads fl width precision numDigits signLen).1
  let padding := (numericPads fl width precision numDigits signLen).2
  let signChars : List Char :=
    if sign then [] else if fl.forceSign then ['+'] else if fl.spaceSign then [' '] else []
  let out :=
    (if fl.leftAlign then [] else List.replicate padding.toNat ' ')
      ++ signChars
      ++ List.replicate zeroPadding.toNat '0'
      ++ buf
      ++ (if fl.leftAlign then List.replicate padding.toNat ' ' else [])
  let ret :=
    (if fl.leftAlign then 0 else padding)
      + (if sign then 0 else if fl.forceSign then 1 else if fl.spaceSign then 1 else 0)
      + zeroPadding + numDigits
      + (if fl.leftAlign then padding else 0)
  (out, ret)

/-- Result of processing one builtin specifier: emitted characters,
amount added to `chars_written`, remaining arguments, and the values
stored through `%n` pointers. -/
structure DispatchRes where
  out : List Char
  ret : Int
  args : List UArg
  stores : List Int
deriving DecidableEq

/-- The builtin-specifier `switch` of `u_parse_format`, including the
per-case `va_arg` reads, the length-modifier casts, the alternate-form
prefixes, and the shared numeric tail.  The build is modelled with
`UPRINTF_FLOAT_SUPPORT` compiled in (the default), so `f`/`F` exist and
check the runtime flag. -/
def dispatchBuiltin (gs : GState) (spec : Char) (fl : Flags)
    (width precision lm : Int) (args : List UArg) : DispatchRes :=
  if spec = 'd' ∨ spec = 'i' then
    let (v0, args') := readIntArg args
    let value :=
      if lm = -2 then signedCast 8 v0
      else if lm = -1 then signedCast 16 v0
      else if lm = 1 ∨ lm = 2 ∨ lm = 5 then signedCast 64 v0
      else signedCast 32 v0
    let buf := u_itoa value 10 false
    let nr := numericOut fl width precision buf (decide (value < 0))
    ⟨nr.1, nr.2, args', []⟩
  else if spec = 'u' then
    let (v0, args') := readUintArg args
    let value :=
      if lm = -2 then v0 % 2 ^ 8
      else if lm = -1 then v0 % 2 ^ 16
      else if lm = 1 ∨ lm = 2 ∨ lm = 3 ∨ lm = 5 then v0 % 2 ^ 64
      else v0 % 2 ^ 32
    let buf := u_utoa value 10 false
    let nr := numericOut fl width precision buf false
    ⟨nr.1, nr.2, args', []⟩
  else if spec = 'o' then
    let (v0, args') := readUintArg args
    let value :=
      if lm = -2 then v0 % 2 ^ 8
      else if lm = -1 then v0 % 2 ^ 16
      else if lm = 1 ∨ lm = 2 ∨ lm = 3 ∨ lm = 5 then v0 % 2 ^ 64
      else v0 % 2 ^ 32
    let buf0 := u_utoa value 8 false
    let buf :=
      if fl.altForm ∧ value ≠ 0 then
        if buf0.length < UPRINTF_BUFFER_SIZE - 1 then '0' :: buf0 else buf0
      else buf0
    let nr := numericOut fl width precision buf false
    ⟨nr.1, nr.2, args', []⟩
  else if spec = 'x' ∨ spec = 'X' then
    let uppercase := spec = 'X'
    let (v0, args') := readUintArg args
    let value :=
      if lm = -2 then v0 % 2 ^ 8
      else if lm = -1 then v0 % 2 ^ 16
      else if lm = 1 ∨ lm = 2 ∨ lm = 3 ∨ lm = 5 then v0 % 2 ^ 64
      else v0 % 2 ^ 32
    let buf0 := u_utoa value 16 uppercase
    let buf :=
      if fl.altForm ∧ value ≠ 0 then
        if buf0.length < UPRINTF_BUFFER_SIZE - 2 then
          '0' :: (if uppercase then 'X' else 'x') :: buf0
        else buf0
      else buf0
    let nr := numericOut fl width precision buf false
    ⟨nr.1, nr.2, args', []⟩
  else if spec = 'f' ∨ spec = 'F' then
    if ¬gs.floatSupport then ⟨['%', spec], 2, args, []⟩
    else
      let (d, args') := readDoubleArg args
      let buf := u_ftoa d precision gs.decimalPoint
      let nr := numericOut fl width precision buf d.isNeg
      ⟨nr.1, nr.2, args', []⟩
  else if spec = 'c' then
    let (v0, args') := readIntArg args
    let c := Char.ofNat ((signedCast 32 v0 % 256).toNat)
    let padding : Int := if width > 1 then width - 1 else 0
    let out :=
      (if fl.leftAlign then [] else List.replicate padding.toNat ' ')
        ++ [c]
        ++ (if fl.leftAlign then List.replicate padding.toNat ' ' else [])
    ⟨out, (if fl.leftAlign then 0 else padding) + 1 + (if fl.leftAlign then padding else 0),
      args', []⟩
  else if spec = 's' then
    let (sOpt, args') := readStrArg args
    let strLen0 : Int := match sOpt with | some s => s.length | none => 6
    let strLen := if 0 ≤ precision ∧ precision < strLen0 then precision else strLen0
    let padding : Int := if width > strLen then width - strLen else 0
    let body := u_output_str (match sOpt with | some s => s | none => "(null)".toList) strLen
    let out :=
      (if fl.leftAlign then [] else List.replicate padding.toNat ' ')
        ++ body
        ++ (if fl.leftAlign then List.replicate padding.toNat ' ' else [])
    ⟨out, (if fl.leftAlign then 0 else padding) + strLen + (if fl.leftAlign then padding else 0),
      args', []⟩
  else if spec = 'p' then
    let (a, args') := readPtrArg args
    let value := a % 2 ^ 64
    let buf0 := u_utoa value 16 false
    let buf := if buf0.length < UPRINTF_BUFFER_SIZE - 2 then '0' :: 'x' :: buf0 else buf0
    let nr := numericOut fl width precision buf false
    ⟨nr.1, nr.2, args', []⟩
  else if spec = '%' then ⟨['%'], 1, args, []⟩
  else if spec = 'n' then
    let (nonnull, args') := readPtrIArg args
    ⟨[], 0, args', if nonnull then [0] else []⟩
  else ⟨['%', spec], 2, args, []⟩

/-- Result of `u_parse_format`: emitted characters, return value
(amount added to `chars_written` by the caller), remaining format text
and arguments, and the values stored through `%n`. -/
structure ParseRes where
  out : List Char
  ret : Int
  restFmt : List Char
  args : List UArg
  stores : List Int

/-- `u_parse_format`: parse the modifiers of one `%`-sequence (the
leading `%` has already been consumed by the caller), then either echo
the whole sequence when the string ended before a specifier, dispatch
to a registered custom handler, or run the builtin switch. -/
def u_parse_format (gs : GState) (fmt : List Char) (args : List UArg) : ParseRes :=
  match fmt with
  | [] => ⟨[], 0, [], args, []⟩
  | _ :: _ =>
    let m := parseMods fmt args
    match m.rest with
    | [] =>
        ⟨'%' :: fmt, 1 + fmt.length, [], m.args, []⟩
    | spec :: rest2 =>
        match findHandler gs.handlers spec with
        | some hf =>
            let hr := hf rest2 m.args
            ⟨hr.out, hr.ret, rest2.drop hr.fmtConsumed, m.args.drop hr.argsConsumed, []⟩
        | none =>
            let d := dispatchBuiltin gs spec m.flags m.width m.precision m.lm m.args
            ⟨d.out, d.ret, rest2, d.args, d.stores⟩

/-- Result of a full formatting call: emitted characters, the `int`
return value, and the `%n` stores in order. -/
structure VRes where
  out : List Char
  ret : Int
  stores : List Int
deriving DecidableEq

/-- The scan loop of `u_vprintf`, with explicit fuel (the format length
always suffices, as each round consumes at least the character
inspected).  Literal characters are emitted directly; on `%` the
per-specifier routine runs, a trailing lone `%` ends the loop, and a
negative per-specifier result aborts with that value. -/
def vprintfGo (gs : GState) : Nat → List Char → List UArg → VRes
  | 0, _, _ => ⟨[], 0, []⟩
  | _ + 1, [], _ => ⟨[], 0, []⟩
  | fuel + 1, c :: fmt', args =>
      if c = '%' then
        if fmt' = [] then ⟨[], 0, []⟩
        else
          let r := u_parse_format gs fmt' args
          if r.ret < 0 then ⟨r.out, r.ret, r.stores⟩
          else
            let v := vprintfGo gs fuel r.restFmt r.args
            ⟨r.out ++ v.out, r.ret + v.ret, r.stores ++ v.stores⟩
      else
        let v := vprintfGo gs fuel fmt' args
        ⟨c :: v.out, v.ret + 1, v.stores⟩

/-- `u_vprintf`: returns -1 when the sink callback or the format
string is null, otherwise runs the scan loop.  The sink is modelled by
the emitted-character list (`cbNonNull` states that the callback
pointer is non-null). -/
def u_vprintf (gs : GState) (cbNonNull : Bool) (fmt : Option (List Char))
    (args : List UArg) : VRes :=
  match fmt with
  | none => ⟨[], -1, []⟩
  | some f => if cbNonNull then vprintfGo gs f.length f args else ⟨[], -1, []⟩

/-- `u_printf`: same null checks, then defers to `u_vprintf`. -/
def u_printf (gs : GState) (cbNonNull : Bool) (fmt : Option (List Char))
    (args : List UArg) : VRes :=
  u_vprintf gs cbNonNull fmt args

/-- The stateful bounded sink `bounded_output_cb` folded over an
emission stream: starting from position `pos`, a character is stored at
the current position only while `pos < size - 1`.  The result is the
final position and the list of (index, character) stores performed. -/
def boundedGo (size : Nat) (pos : Nat) (ws : List (Nat × Char)) :
    List Char → Nat × List (Nat × Char)
  | [] => (pos, ws)
  | c :: cs =>
      if pos < size - 1 then boundedGo size (pos + 1) (ws ++ [(pos, c)]) cs
      else boundedGo size pos ws cs

/-- Result of `u_snprintf`: the return value and every store into the
caller's buffer, as (index, character) pairs in order (the final store
is the null terminator). -/
structure SnprintfRes where
  ret : Int
  writes : List (Nat × Char)
deriving DecidableEq

/-- `u_snprintf`: null buffer, zero size or null format give -1 with
no store at all; otherwise the formatting stream is driven through the
bounded sink, a null terminator is stored at the final position, and
the final position (characters actually written) is returned. -/
def u_snprintf (gs : GState) (bufNonNull : Bool) (size : Nat)
    (fmt : Option (List Char)) (args : List UArg) : SnprintfRes :=
  if ¬bufNonNull ∨ size = 0 ∨ fmt = none then ⟨-1, []⟩
  else
    let r := u_vprintf gs true fmt args
    let br := boundedGo size 0 [] r.out
    ⟨(br.1 : Int), br.2 ++ [(br.1, Char.ofNat 0)]⟩

/-- The specifier characters of a table's slots, in slot order. -/
def specifiers (t : List Slot) : List Char := t.map Slot.specifier

/-- Number of slots currently holding the given specifier character. -/
def countSpec (t : List Slot) (c : Char) : Nat := (specifiers t).count c

/-- Apply a sequence of `u_register_format_handler` calls (each with a
non-null handler) to a table, in order. -/
def applyRegs : List (Char × HandlerFn) → List Slot → List Slot
  | [], t => t
  | op :: rest, t => applyRegs rest (u_register_format_handler op.1 (some op.2) t).1

/-- Structural invariant of the handler table maintained by
registration alone: occupied slots (nonzero specifier) form a prefix,
the remaining slots are empty, and the occupied specifiers are
pairwise distinct. -/
def TableInv (t : List Slot) : Prop :=
  ∃ a b, t = a ++ b ∧ (∀ s ∈ a, s.specifier ≠ Char.ofNat 0) ∧
    (∀ s ∈ b, s.specifier = Char.ofNat 0) ∧ (a.map Slot.specifier).Nodup

/-- A generic custom handler used to build concrete table scenarios:
emits nothing, returns 0, consumes nothing. -/
def hGeneric : HandlerFn := fun _ _ => ⟨[], 0, 0, 0⟩

/-- The table after `register('a'); register('b'); unregister('a');
register('b')`, the scenario refuting the at-most-one-slot claim. -/
def c3Table : List Slot :=
  (u_register_format_handler 'b' (some hGeneric)
    (u_unregister_format_handler 'a'
      (u_register_format_handler 'b' (some hGeneric)
        (u_register_format_handler 'a' (some hGeneric) table0).1).1).1).1

/-- A custom handler that emits nothing but claims (with a
non-negative return value) to have written 5 characters. -/
def lyingHandler : HandlerFn := fun _ _ => ⟨[], 5, 0, 0⟩

/-- Process-wide state with `lyingHandler` registered for `K`. -/
def gsLying : GState :=
  ⟨'.', true, (u_register_format_handler 'K' (some lyingHandler) table0).1⟩

/-- All registered handlers report exactly the number of characters
they emitted (in particular, never a negative count). -/
def AccurateHandlers (gs : GState) : Prop :=
  ∀ s ∈ gs.handlers, ∀ hf, s.handler = some hf →
    ∀ f a, (hf f a).ret = ((hf f a).out.length : Int)

/-- The builtin specifier characters of the engine's `switch`. -/
def builtinSpecifiers : List Char :=
  ['d', 'i', 'u', 'o', 'x', 'X', 'f', 'F', 'c', 's', 'p', '%', 'n']

/-- The emission order stated by the specification, amended: left
space padding, then the sign character — which is only ever a forced
`+` or space for a non-negative value, since a negative value's `-` is
already the first character of the digit text — then zero padding,
then the digit text, then right space padding only when left-aligned;
when the zero-pad flag is set, left-align is not set and no explicit
precision was given, the space padding is converted to zero padding
placed after the (forced) sign. -/
def numericOutOrdered (fl : Flags) (width precision : Int) (buf : List Char) (sign : Bool) :
    List Char :=
  let signLen : Int := if sign ∨ fl.forceSign ∨ fl.spaceSign then 1 else 0
  let precZeros : Int := if precision > (buf.length : Int) then precision - buf.length else 0
  let contentLen : Int := buf.length + signLen + precZeros
  let spacePad : Int := if width > contentLen then width - contentLen else 0
  let convert := fl.zeroPad ∧ ¬fl.leftAlign ∧ precision < 0
  let zeros : Int := precZeros + (if convert then spacePad else 0)
  let spaces : Int := if convert then 0 else spacePad
  let signChars : List Char :=
    if sign then [] else if fl.forceSign then ['+'] else if fl.spaceSign then [' '] else []
  (if fl.leftAlign then [] else List.replicate spaces.toNat ' ')
    ++ signChars
    ++ List.replicate zeros.toNat '0'
    ++ buf
    ++ (if fl.leftAlign then List.replicate spaces.toNat ' ' else [])

/-!  ## Handler-table lemmas  -/

theorem registerGo_skip (c : Char) (hf : HandlerFn) :
    ∀ a : List Slot, (∀ s ∈ a, s.specifier ≠ Char.ofNat 0 ∧ s.specifier ≠ c) →
      ∀ b : List Slot,
        registerGo c hf (a ++ b) = ((a ++ (registerGo c hf b).1), (registerGo c hf b).2) := by
  intro a
  induction a with
  | nil => intro _ b; simp
  | cons s a ih =>
      intro h b
      have hs := h s (by simp)
      simp only [List.cons_append, registerGo]
      rw [if_neg (by tauto)]
      simp only [List.append_eq]
      rw [ih (fun x hx => h x (by simp [hx])) b]

theorem registerGo_hit (c : Char) (hf : HandlerFn) :
    ∀ a : List Slot, (∀ s ∈ a, s.specifier ≠ Char.ofNat 0 ∧ s.specifier ≠ c) →
      ∀ (s : Slot) (b : List Slot),
        (s.specifier = Char.ofNat 0 ∨ s.specifier = c) →
        registerGo c hf (a ++ s :: b) = (a ++ ⟨c, some hf⟩ :: b, 0) := by
  intro a ha s b hs
  rw [registerGo_skip c hf a ha (s :: b)]
  simp [registerGo, if_pos hs]

theorem tableInv_register (c : Char) (hf : HandlerFn) (t : List Slot) (h : TableInv t) :
    TableInv (u_register_format_handler c (some hf) t).1 ∧
      (c ≠ Char.ofNat 0 → c ∈ specifiers t →
        specifiers (u_register_format_handler c (some hf) t).1 = specifiers t) := by
  obtain ⟨a, b, rfl, ha, hb, hnd⟩ := h
  simp only [u_register_format_handler]
  by_cases hc : c ∈ a.map Slot.specifier
  · -- the specifier is already registered: the matching slot is overwritten in place
    obtain ⟨s, hs, hspec⟩ := List.mem_map.mp hc
    obtain ⟨a₁, a₂, rfl⟩ := List.append_of_mem hs
    have hnd' := hnd
    rw [List.map_append, List.map_cons, hspec] at hnd'
    have hcnot : c ∉ a₁.map Slot.specifier := by
      have hmid := (List.nodup_cons.mp (List.nodup_middle.mp hnd')).1
      simp at hmid
      intro hcm
      obtain ⟨x, hx, hxc⟩ := List.mem_map.mp hcm
      exact hmid.1 x hx hxc
    have ha₁ : ∀ x ∈ a₁, x.specifier ≠ Char.ofNat 0 ∧ x.specifier ≠ c := by
      intro x hx
      refine ⟨ha x (by simp [hx]), ?_⟩
      intro hxc
      exact hcnot (List.mem_map.mpr ⟨x, hx, hxc⟩)
    rw [List.append_assoc, List.cons_append,
        registerGo_hit c hf a₁ ha₁ s (a₂ ++ b) (Or.inr hspec)]
    constructor
    · exact ⟨a₁ ++ ⟨c, some hf⟩ :: a₂, b, by simp, by
        intro x hx
        simp at hx
        rcases hx with hx | hx | hx
        · exact ha x (by simp [hx])
        · subst hx; simpa [hspec] using ha s (by simp)
        · exact ha x (by simp [hx]), hb, by
        simpa [hspec] using hnd⟩
    · intro _ _
      simp [specifiers, hspec]
  · -- new specifier: lands in the first empty slot (if any)
    have ha' : ∀ x ∈ a, x.specifier ≠ Char.ofNat 0 ∧ x.specifier ≠ c := by
      intro x hx
      refine ⟨ha x hx, fun hxc => hc (List.mem_map.mpr ⟨x, hx, hxc⟩)⟩
    rw [registerGo_skip c hf a ha' b]
    have hmem : c ≠ Char.ofNat 0 → c ∈ specifiers (a ++ b) → False := by
      intro hc0 hcs
      simp only [specifiers, List.map_append, List.mem_append] at hcs
      rcases hcs with hcs | hcs
      · exact hc hcs
      · obtain ⟨x, hx, hxc⟩ := List.mem_map.mp hcs
        exact hc0 (hxc ▸ hb x hx)
    refine ⟨?_, fun hc0 hcs => absurd hcs (fun hcs => hmem hc0 hcs)⟩
    match b with
    | [] =>
        exact ⟨a, [], by simp [registerGo], ha, by simp, hnd⟩
    | s :: b' =>
        have hs0 : s.specifier = Char.ofNat 0 := hb s (by simp)
        simp only [registerGo, if_pos (Or.inl hs0)]
        by_cases hc0 : c = Char.ofNat 0
        · exact ⟨a, ⟨c, some hf⟩ :: b', rfl, ha,
            by
              intro x hx
              simp at hx
              rcases hx with hx | hx
              · simp [hx, hc0]
              · exact hb x (by simp [hx]), hnd⟩
        · refine ⟨a ++ [⟨c, some hf⟩], b', by simp, ?_, fun x hx => hb x (by simp [hx]), ?_⟩
          · intro x hx
            simp at hx
            rcases hx with hx | hx
            · exact ha x hx
            · simp [hx, hc0]
          · simp [List.nodup_append, hnd, hc]

theorem tableInv_table0 : TableInv table0 :=
  ⟨[], table0, by simp, by simp, fun s hs => by
    have := List.eq_of_mem_replicate hs
    simp [this], by simp⟩

theorem tableInv_applyRegs :
    ∀ (ops : List (Char × HandlerFn)) (t : List Slot), TableInv t → TableInv (applyRegs ops t) := by
  intro ops
  induction ops with
  | nil => intro t h; exact h
  | cons op rest ih =>
      intro t h
      exact ih _ (tableInv_register op.1 op.2 t h).1

theorem countSpec_le_one_of_inv (t : List Slot) (c : Char) (h : TableInv t)
    (hc : c ≠ Char.ofNat 0) : countSpec t c ≤ 1 := by
  obtain ⟨a, b, rfl, ha, hb, hnd⟩ := h
  have hbc : ((b.map Slot.specifier).count c) = 0 := by
    refine List.count_eq_zero.mpr ?_
    intro hmem
    obtain ⟨x, hx, hxc⟩ := List.mem_map.mp hmem
    exact hc (hxc ▸ hb x hx)
  have hac : ((a.map Slot.specifier).count c) ≤ 1 :=
    List.nodup_iff_count_le_one.mp hnd c
  simp only [countSpec, specifiers, List.map_append, List.count_append]
  omega

/-!  ## Bounded-sink lemmas  -/

theorem boundedGo_pos_le (size : Nat) :
    ∀ (cs : List Char) (pos : Nat) (ws : List (Nat × Char)), pos ≤ size - 1 →
      (boundedGo size pos ws cs).1 ≤ size - 1 := by
  intro cs
  induction cs with
  | nil => intro pos ws h; exact h
  | cons c cs ih =>
      intro pos ws h
      simp only [boundedGo]
      split
      · exact ih (pos + 1) _ (by omega)
      · exact ih pos ws h

theorem boundedGo_len (size : Nat) :
    ∀ (cs : List Char) (pos : Nat) (ws : List (Nat × Char)), ws.length = pos →
      (boundedGo size pos ws cs).2.length = (boundedGo size pos ws cs).1 := by
  intro cs
  induction cs with
  | nil => intro pos ws h; exact h
  | cons c cs ih =>
      intro pos ws h
      simp only [boundedGo]
      split
      · exact ih (pos + 1) _ (by simp [h])
      · exact ih pos ws h

theorem boundedGo_idx (size : Nat) :
    ∀ (cs : List Char) (pos : Nat) (ws : List (Nat × Char)),
      (∀ w ∈ ws, w.1 < size - 1) →
      ∀ w ∈ (boundedGo size pos ws cs).2, w.1 < size - 1 := by
  intro cs
  induction cs with
  | nil => intro pos ws h; exact h
  | cons c cs ih =>
      intro pos ws h
      simp only [boundedGo]
      split
      · rename_i hlt
        refine ih (pos + 1) _ ?_
        intro w hw
        rcases List.mem_append.mp hw with hw | hw
        · exact h w hw
        · have hwp : w = (pos, c) := by simpa using hw
          rw [hwp]
          exact hlt
      · exact ih pos ws h

/-!  ## Digit-count and float-buffer lemmas  -/

theorem utoaGo_length (base : Nat) (up : Bool) (hb : 2 ≤ base) :
    ∀ (fuel value k : Nat), value < fuel → 1 ≤ k → value < base ^ k →
      (utoaGo base up fuel value).length ≤ k := by
  intro fuel
  induction fuel with
  | zero => intro value k h; omega
  | succ fuel ih =>
      intro value k hv hk hbk
      simp only [utoaGo]
      split
      · simpa using hk
      · rename_i hdiv
        have hvpos : 0 < value := by
          by_contra h0
          have : value = 0 := by omega
          simp [this] at hdiv
        have hdlt : value / base < value := Nat.div_lt_self hvpos (by omega)
        have hk2 : 2 ≤ k := by
          by_contra hlt
          have hk1 : k = 1 := by omega
          have : base ≤ value := by
            by_contra hbv
            have : value / base = 0 := Nat.div_eq_of_lt (by omega)
            exact hdiv this
          simp [hk1] at hbk
          omega
        have hrec : value / base < base ^ (k - 1) := by
          have hpow : base ^ (k - 1) * base = base ^ k := by
            rw [← pow_succ]
            congr 1
            omega
          refine (Nat.div_lt_iff_lt_mul (show 0 < base by omega)).mpr ?_
          rw [hpow]
          exact hbk
        have := ih (value / base) (k - 1) (by omega) (by omega) hrec
        simp only [List.length_cons]
        omega

theorem u_utoa_length (value base k : Nat) (up : Bool) (hb : 2 ≤ base) (hb' : base ≤ 36)
    (hk : 1 ≤ k) (hv : value < base ^ k) : (u_utoa value base up).length ≤ k := by
  simp only [u_utoa, if_pos (And.intro hb hb'), List.length_reverse]
  exact utoaGo_length base up hb (value + 1) value k (by omega) hk hv

theorem fracLoop_length :
    ∀ (i : Nat) (v : ℚ) (len : Nat), len < UPRINTF_BUFFER_SIZE - 1 →
      (fracLoop i v len).length ≤ (UPRINTF_BUFFER_SIZE - 1) - len := by
  intro i
  induction i with
  | zero => intro v len h; simp [fracLoop]
  | succ i ih =>
      intro v len h
      simp only [fracLoop]
      split
      · simp only [List.length_cons, List.length_nil]
        omega
      · rename_i hbr
        have := ih (v * 10 - ratTrunc (v * 10)) (len + 1) (by omega)
        simp only [List.length_cons]
        omega

theorem ftoaTail_length (head2 : List Char) (pn : Nat) (v : ℚ)
    (h : head2.length ≤ UPRINTF_BUFFER_SIZE - 2) :
    (head2 ++ fracLoop pn v head2.length).length ≤ UPRINTF_BUFFER_SIZE - 1 := by
  have hfr := fracLoop_length pn v head2.length (by
    simp only [UPRINTF_BUFFER_SIZE] at h ⊢
    omega)
  rw [List.length_append]
  simp only [UPRINTF_BUFFER_SIZE] at h hfr ⊢
  omega

/-!  ## Format-cursor lemmas: each parse stage only consumes from the
front of the format string.  -/

theorem parseFlags_len :
    ∀ (fmt : List Char) (fl : Flags), (parseFlags fl fmt).2.length ≤ fmt.length := by
  intro fmt
  induction fmt with
  | nil => intro fl; simp [parseFlags]
  | cons c rest ih =>
      intro fl
      simp only [parseFlags]
      split_ifs <;> simp only [List.length_cons] <;>
        first
          | (exact Nat.le_succ_of_le (ih _))
          | simp

theorem digitLoop_len :
    ∀ (fmt : List Char) (acc : Int), (digitLoop acc fmt).2.length ≤ fmt.length := by
  intro fmt
  induction fmt with
  | nil => intro acc; simp [digitLoop]
  | cons c rest ih =>
      intro acc
      simp only [digitLoop]
      split_ifs <;> simp only [List.length_cons] <;>
        first
          | (exact Nat.le_succ_of_le (ih _))
          | simp

theorem parseWidth_len (fl : Flags) (fmt : List Char) (args : List UArg) :
    (parseWidth fl fmt args).2.2.1.length ≤ fmt.length := by
  unfold parseWidth
  split
  · simp
  · simpa using digitLoop_len fmt 0

theorem parsePrec_len (fl : Flags) (fmt : List Char) (args : List UArg) :
    (parsePrec fl fmt args).2.2.1.length ≤ fmt.length := by
  unfold parsePrec
  split
  · simp only [List.length_cons]
    omega
  · rename_i rest _
    have := digitLoop_len rest 0
    simp only [List.length_cons]
    simpa using Nat.le_succ_of_le this
  · simp

theorem parseLen_len (fmt : List Char) : (parseLen fmt).2.length ≤ fmt.length := by
  unfold parseLen
  split <;> simp <;> omega

theorem parseMods_len (fmt : List Char) (args : List UArg) :
    (parseMods fmt args).rest.length ≤ fmt.length := by
  simp only [parseMods]
  have h1 := parseFlags_len fmt ({} : Flags)
  have h2 := parseWidth_len (parseFlags {} fmt).1 (parseFlags {} fmt).2 args
  have h3 := parsePrec_len (parseWidth (parseFlags {} fmt).1 (parseFlags {} fmt).2 args).1
    (parseWidth (parseFlags {} fmt).1 (parseFlags {} fmt).2 args).2.2.1
    (parseWidth (parseFlags {} fmt).1 (parseFlags {} fmt).2 args).2.2.2
  have h4 := parseLen_len
    (parsePrec (parseWidth (parseFlags {} fmt).1 (parseFlags {} fmt).2 args).1
      (parseWidth (parseFlags {} fmt).1 (parseFlags {} fmt).2 args).2.2.1
      (parseWidth (parseFlags {} fmt).1 (parseFlags {} fmt).2 args).2.2.2).2.2.1
  omega

theorem findHandler_mem :
    ∀ (t : List Slot) (c : Char) (hf : HandlerFn),
      findHandler t c = some hf → ∃ s ∈ t, s.handler = some hf := by
  intro t
  induction t with
  | nil => intro c hf h; simp [findHandler] at h
  | cons s rest ih =>
      intro c hf h
      simp only [findHandler] at h
      split_ifs at h with hs
      · exact ⟨s, by simp, h⟩
      · obtain ⟨x, hx, hxh⟩ := ih c hf h
        exact ⟨x, by simp [hx], hxh⟩

theorem parse_restFmt_le (gs : GState) (fmt : List Char) (args : List UArg) :
    (u_parse_format gs fmt args).restFmt.length ≤ fmt.length := by
  match fmt with
  | [] => simp [u_parse_format]
  | c :: fmt' =>
      have hm := parseMods_len (c :: fmt') args
      simp only [u_parse_format]
      split
      · simp
      · rename_i spec rest2 hrest
        rw [hrest] at hm
        simp only [List.length_cons] at hm
        split
        · rename_i hf hfind
          simp only [List.length_drop, List.length_cons]
          omega
        · simp only [List.length_cons]
          omega

/-!  ## The return value counts exactly the emitted characters
(for accurate handlers).  -/

theorem numericPads_nonneg (fl : Flags) (width precision numDigits signLen : Int) :
    0 ≤ (numericPads fl width precision numDigits signLen).1 ∧
      0 ≤ (numericPads fl width precision numDigits signLen).2 := by
  simp only [numericPads]
  split_ifs <;> constructor <;> simp <;> omega

theorem numericOut_ret_len (fl : Flags) (width precision : Int) (buf : List Char)
    (sign : Bool) :
    (numericOut fl width precision buf sign).2
      = ((numericOut fl width precision buf sign).1.length : Int) := by
  obtain ⟨hz, hp⟩ := numericPads_nonneg fl width precision (buf.length : Int)
    (if sign then 1 else if fl.forceSign then 1 else if fl.spaceSign then 1 else 0)
  have hs : (if sign then (0 : Int) else if fl.forceSign then 1 else if fl.spaceSign then 1
        else 0)
      = ((if sign then ([] : List Char) else if fl.forceSign then ['+']
          else if fl.spaceSign then [' '] else []).length : Int) := by
    split_ifs <;> simp
  simp only [numericOut]
  rw [hs]
  cases hla : fl.leftAlign <;> simp [List.length_append, hla] <;> omega

theorem strBody_len (sOpt : Option (List Char)) (precision : Int) :
    ((u_output_str (match sOpt with | some s => s | none => "(null)".toList)
        (if 0 ≤ precision ∧ precision <
            (match sOpt with | some s => (s.length : Int) | none => 6)
          then precision
          else match sOpt with | some s => (s.length : Int) | none => 6)).length : Int)
      = (if 0 ≤ precision ∧ precision <
            (match sOpt with | some s => (s.length : Int) | none => 6)
          then precision
          else match sOpt with | some s => (s.length : Int) | none => 6) := by
  cases sOpt with
  | none =>
      have h6 : "(null)".toList.length = 6 := by decide
      simp only [u_output_str]
      split_ifs with hp hneg hneg
      · omega
      · simp only [List.length_take, h6]
        omega
      · omega
      · simp only [List.length_take, h6]
        omega
  | some s =>
      simp only [u_output_str]
      split_ifs with hp hneg hneg
      · omega
      · simp only [List.length_take]
        omega
      · omega
      · simp only [List.length_take]
        omega

theorem dispatch_ret_len (gs : GState) (spec : Char) (fl : Flags)
    (width precision lm : Int) (args : List UArg) :
    (dispatchBuiltin gs spec fl width precision lm args).ret
      = ((dispatchBuiltin gs spec fl width precision lm args).out.length : Int) := by
  by_cases h1 : spec = 'd' ∨ spec = 'i'
  · simp only [dispatchBuiltin, if_pos h1]
    exact numericOut_ret_len _ _ _ _ _
  by_cases h2 : spec = 'u'
  · simp only [dispatchBuiltin, if_neg h1, if_pos h2]
    exact numericOut_ret_len _ _ _ _ _
  by_cases h3 : spec = 'o'
  · simp only [dispatchBuiltin, if_neg h1, if_neg h2, if_pos h3]
    exact numericOut_ret_len _ _ _ _ _
  by_cases h4 : spec = 'x' ∨ spec = 'X'
  · simp only [dispatchBuiltin, if_neg h1, if_neg h2, if_neg h3, if_pos h4]
    exact numericOut_ret_len _ _ _ _ _
  by_cases h5 : spec = 'f' ∨ spec = 'F'
  · simp only [dispatchBuiltin, if_neg h1, if_neg h2, if_neg h3, if_neg h4, if_pos h5]
    by_cases hfs : gs.floatSupport
    · simp only [hfs, not_true, if_neg (by simp : ¬(False : Prop))]
      exact numericOut_ret_len _ _ _ _ _
    · simp only [hfs]
      simp
  by_cases h6 : spec = 'c'
  · simp only [dispatchBuiltin, if_neg h1, if_neg h2, if_neg h3, if_neg h4, if_neg h5,
      if_pos h6]
    simp only [List.length_append, List.length_cons, List.length_nil,
      List.length_replicate]
    cases hla : fl.leftAlign <;> simp [hla] <;> split_ifs with hw <;> omega
  by_cases h7 : spec = 's'
  · simp only [dispatchBuiltin, if_neg h1, if_neg h2, if_neg h3, if_neg h4, if_neg h5,
      if_neg h6, if_pos h7]
    have hb := strBody_len (readStrArg args).1 precision
    cases hla : fl.leftAlign <;>
      simp only [hla, List.length_append, List.length_replicate, List.length_nil,
        Bool.false_eq_true, if_true, if_false] <;>
      split_ifs at hb ⊢ <;>
      push_cast <;>
      omega
  by_cases h8 : spec = 'p'
  · simp only [dispatchBuiltin, if_neg h1, if_neg h2, if_neg h3, if_neg h4, if_neg h5,
      if_neg h6, if_neg h7, if_pos h8]
    exact numericOut_ret_len _ _ _ _ _
  by_cases h9 : spec = '%'
  · simp [dispatchBuiltin, if_neg h1, if_neg h2, if_neg h3, if_neg h4, if_neg h5,
      if_neg h6, if_neg h7, if_neg h8, if_pos h9]
  by_cases h10 : spec = 'n'
  · simp [dispatchBuiltin, if_neg h1, if_neg h2, if_neg h3, if_neg h4, if_neg h5,
      if_neg h6, if_neg h7, if_neg h8, if_neg h9, if_pos h10]
  · simp [dispatchBuiltin, if_neg h1, if_neg h2, if_neg h3, if_neg h4, if_neg h5,
      if_neg h6, if_neg h7, if_neg h8, if_neg h9, if_neg h10]

theorem parse_ret_len (gs : GState) (hacc : AccurateHandlers gs) (fmt : List Char)
    (args : List UArg) :
    (u_parse_format gs fmt args).ret = ((u_parse_format gs fmt args).out.length : Int) := by
  match fmt with
  | [] => simp [u_parse_format]
  | c :: fmt' =>
      simp only [u_parse_format]
      split
      · simp only [List.length_cons]
        push_cast
        ring
      · rename_i spec rest2 hrest
        split
        · rename_i hf hfind
          obtain ⟨s, hs, hsh⟩ := findHandler_mem gs.handlers spec hf hfind
          exact hacc s hs hf hsh rest2 (parseMods (c :: fmt') args).args
        · exact dispatch_ret_len gs spec _ _ _ _ _

theorem vprintfGo_ret_len (gs : GState) (hacc : AccurateHandlers gs) :
    ∀ (fuel : Nat) (fmt : List Char) (args : List UArg), fmt.length ≤ fuel →
      (vprintfGo gs fuel fmt args).ret = ((vprintfGo gs fuel fmt args).out.length : Int) := by
  intro fuel
  induction fuel with
  | zero => intro fmt args h; simp [vprintfGo]
  | succ fuel ih =>
      intro fmt args h
      match fmt with
      | [] => simp [vprintfGo]
      | c :: fmt' =>
          simp only [List.length_cons] at h
          simp only [vprintfGo]
          by_cases hc : c = '%'
          · rw [if_pos hc]
            by_cases hn : fmt' = []
            · rw [if_pos hn]
              simp
            · rw [if_neg hn]
              have hpr := parse_ret_len gs hacc fmt' args
              have hnn : ¬(u_parse_format gs fmt' args).ret < 0 := by
                rw [hpr]
                omega
              rw [if_neg hnn]
              have hrl := parse_restFmt_le gs fmt' args
              have hrec := ih (u_parse_format gs fmt' args).restFmt
                (u_parse_format gs fmt' args).args (by omega)
              simp only [List.length_append]
              push_cast
              omega
          · rw [if_neg hc]
            have hrec := ih fmt' args (by omega)
            simp only [List.length_cons]
            push_cast
            omega

/-- C3 (counterexample): after the call sequence `register('a')`,
`register('b')`, `unregister('a')`, `register('b')`, two distinct table
slots hold the specifier `'b'`, refuting the at-most-one-slot-per-
specifier invariant for mixed register/unregister sequences (the second
`register('b')` lands in the empty slot freed by `unregister('a')`
while the old `'b'` slot survives). -/
theorem claim_C3_cex : countSpec c3Table 'b' = 2 ∧ ¬countSpec c3Table 'b' ≤ 1 :=
  ⟨by decide, by decide⟩

/-- C3 (amended): for every finite sequence of
`u_register_format_handler` calls alone (no unregistration) starting
from the initial empty table, at most one slot holds any given nonzero
specifier character, and re-registering a specifier that is already
registered overwrites its slot in place: the slot/specifier layout of
the table is unchanged, so no second slot is consumed. -/
theorem claim_C3_amended (ops : List (Char × HandlerFn)) (c : Char)
    (hc : c ≠ Char.ofNat 0) :
    countSpec (applyRegs ops table0) c ≤ 1 ∧
      (∀ hf : HandlerFn, c ∈ specifiers (applyRegs ops table0) →
        specifiers (u_register_format_handler c (some hf) (applyRegs ops table0)).1
          = specifiers (applyRegs ops table0)) := by
  have hinv : TableInv (applyRegs ops table0) := tableInv_applyRegs ops table0 tableInv_table0
  exact ⟨countSpec_le_one_of_inv _ c hinv hc,
    fun hf hmem => (tableInv_register c hf _ hinv).2 hc hmem⟩

/-- C3 (witness): the amended statement instantiated at the single
registration of `'K'`. -/
theorem claim_C3_witness :
    'K' ≠ Char.ofNat 0 ∧
      (countSpec (applyRegs [('K', hGeneric)] table0) 'K' ≤ 1 ∧
        (∀ hf : HandlerFn, 'K' ∈ specifiers (applyRegs [('K', hGeneric)] table0) →
          specifiers
              (u_register_format_handler 'K' (some hf) (applyRegs [('K', hGeneric)] table0)).1
            = specifiers (applyRegs [('K', hGeneric)] table0))) :=
  ⟨by decide, claim_C3_amended [('K', hGeneric)] 'K' (by decide)⟩

/-- C2 (code evaluation at the failing input): formatting `"abc%n"`
with a non-null `int*` argument emits `"abc"` and stores 0 — not 3 —
because `chars_written` is local to the per-specifier routine
`u_parse_format` and no characters are emitted within the `%n`
directive before the store. -/
theorem claim_C2_eval :
    u_vprintf gs0 true (some "abc%n".toList) [.ptrI true] = ⟨"abc".toList, 3, [0]⟩ ∧
      (0 : Int) ≠ 3 :=
  ⟨by decide, by decide⟩

/-- C7: `u_ftoa` renders NaN as `"nan"`, +Infinity as `"inf"` and
-Infinity as `"-inf"`, for every requested precision and decimal-point
character, with no sign character added. -/
theorem claim_C7 (p : Int) (dp : Char) :
    u_ftoa .nan p dp = ['n', 'a', 'n'] ∧ u_ftoa .posInf p dp = ['i', 'n', 'f'] ∧
      u_ftoa .negInf p dp = ['-', 'i', 'n', 'f'] :=
  ⟨rfl, rfl, rfl⟩

/-- C10: `u_snprintf` with a null buffer, a capacity of 0, or a null
format string returns -1 and performs no store into the buffer at all,
not even a null terminator. -/
theorem claim_C10 (gs : GState) (b : Bool) (size : Nat) (fmt : Option (List Char))
    (args : List UArg) :
    u_snprintf gs false size fmt args = ⟨-1, []⟩ ∧
      u_snprintf gs b 0 fmt args = ⟨-1, []⟩ ∧
      u_snprintf gs b size none args = ⟨-1, []⟩ := by
  refine ⟨?_, ?_, ?_⟩ <;> simp [u_snprintf]

/-- C4 (counterexample): formatting `"%5K"` with no handler registered
for `K` emits `"%K"`, not the full raw specifier text `"%5K"`: the
unknown-specifier path drops the already-consumed width text. -/
theorem claim_C4_cex :
    (u_vprintf gs0 true (some "%5K".toList) []).out = ['%', 'K'] ∧
      ['%', 'K'] ≠ "%5K".toList :=
  ⟨by decide, by decide⟩

/-- C5 (counterexample): `"%05d"` with -42 emits `"0-42"`: the
zero-padding precedes the `-` sign (which `u_itoa` placed inside the
digit text), contradicting the claimed sign-then-zero-padding order,
which would produce `"-0042"`. -/
theorem claim_C5_cex :
    (u_vprintf gs0 true (some "%05d".toList) [.int (-42)]).out = "0-42".toList ∧
      "0-42".toList ≠ "-0042".toList :=
  ⟨by decide, by decide⟩

/-- C6 (counterexample): with a registered handler for `K` that emits
nothing but returns the non-negative count 5, `u_vprintf` on `"%K"`
returns 5 although 0 characters were emitted, refuting the claim that
a non-negative return from every handler suffices for the call to
return the number of characters actually emitted. -/
theorem claim_C6_cex :
    (u_vprintf gsLying true (some "%K".toList) []).ret = 5 ∧
      (u_vprintf gsLying true (some "%K".toList) []).out.length = 0 ∧ (5 : Int) ≠ 0 :=
  ⟨by decide, by decide, by decide⟩

/-- C1: for every capacity `N ≥ 1`, format string and argument list,
`u_snprintf` stores only at indices below `N`, its final store is a
null terminator at an index at most `N - 1`, and its return value is
the number of characters stored before the terminator; in particular
capacity 10 with `"Hello, %s!"` / `"World"` stores `"Hello, Wo"` plus
a terminator and returns 9, while the full stream would have had 13
characters. -/
theorem claim_C1 :
    (∀ (gs : GState) (N : Nat) (fmtL : List Char) (args : List UArg), 1 ≤ N →
      ∃ (pos : Nat) (body : List (Nat × Char)),
        (u_snprintf gs true N (some fmtL) args).writes = body ++ [(pos, Char.ofNat 0)] ∧
        (u_snprintf gs true N (some fmtL) args).ret = (pos : Int) ∧
        body.length = pos ∧ pos ≤ N - 1 ∧
        ∀ w ∈ (u_snprintf gs true N (some fmtL) args).writes, w.1 < N) ∧
    (u_snprintf gs0 true 10 (some "Hello, %s!".toList) [.str (some "World".toList)]).ret = 9 ∧
    (u_snprintf gs0 true 10 (some "Hello, %s!".toList) [.str (some "World".toList)]).writes.map
        Prod.snd = "Hello, Wo".toList ++ [Char.ofNat 0] ∧
    (u_vprintf gs0 true (some "Hello, %s!".toList) [.str (some "World".toList)]).out.length
      = 13 := by
  refine ⟨?_, by decide, by decide, by decide⟩
  intro gs N fmtL args hN
  unfold u_snprintf
  split
  · rename_i hcon
    exfalso
    simp at hcon
    omega
  set out := (u_vprintf gs true (some fmtL) args).out with hout
  refine ⟨(boundedGo N 0 [] out).1, (boundedGo N 0 [] out).2, rfl, rfl,
    boundedGo_len N out 0 [] rfl, boundedGo_pos_le N out 0 [] (by omega), ?_⟩
  intro w hw
  rcases List.mem_append.mp hw with hw | hw
  · have := boundedGo_idx N out 0 [] (by simp) w hw
    omega
  · have hwp : w = ((boundedGo N 0 [] out).1, Char.ofNat 0) := by simpa using hw
    have hle := boundedGo_pos_le N out 0 [] (show (0 : Nat) ≤ N - 1 by omega)
    rw [hwp]
    show (boundedGo N 0 [] out).1 < N
    omega

/-- C1 (witness): the general bound instantiated at capacity 10 with
`"Hello, %s!"` and argument `"World"`. -/
theorem claim_C1_witness :
    (1 : Nat) ≤ 10 ∧
      ∃ (pos : Nat) (body : List (Nat × Char)),
        (u_snprintf gs0 true 10 (some "Hello, %s!".toList)
            [.str (some "World".toList)]).writes = body ++ [(pos, Char.ofNat 0)] ∧
        (u_snprintf gs0 true 10 (some "Hello, %s!".toList)
            [.str (some "World".toList)]).ret = (pos : Int) ∧
        body.length = pos ∧ pos ≤ 10 - 1 ∧
        ∀ w ∈ (u_snprintf gs0 true 10 (some "Hello, %s!".toList)
            [.str (some "World".toList)]).writes, w.1 < 10 :=
  ⟨by decide, claim_C1.1 gs0 10 "Hello, %s!".toList [.str (some "World".toList)] (by decide)⟩

/-- C8: `u_ftoa` caps the effective precision at
`UPRINTF_BUFFER_SIZE - 16` and, for every double in the range where
the C cast `(int64_t)value` is defined, produces at most
`UPRINTF_BUFFER_SIZE - 1` characters, so every store (including the
null terminator at the end of the output) lands strictly below index
`UPRINTF_BUFFER_SIZE`; fractional digits beyond the buffer are
silently dropped by the in-loop bound check. -/
theorem claim_C8 (v : UDouble) (p : Int) (dp : Char)
    (hfin : ∀ q : ℚ, v = .finite q → -(2 ^ 63) < q ∧ q < 2 ^ 63) :
    (u_ftoa v p dp).length ≤ UPRINTF_BUFFER_SIZE - 1 ∧
      ftoaClampPrec p ≤ (UPRINTF_BUFFER_SIZE : Int) - 16 := by
  have hclamp : ftoaClampPrec p ≤ (UPRINTF_BUFFER_SIZE : Int) - 16 := by
    simp only [ftoaClampPrec, UPRINTF_BUFFER_SIZE]
    norm_num
    split_ifs <;> omega
  refine ⟨?_, hclamp⟩
  match v with
  | .nan => simp [u_ftoa, UPRINTF_BUFFER_SIZE]
  | .posInf => simp [u_ftoa, UPRINTF_BUFFER_SIZE]
  | .negInf => simp [u_ftoa, UPRINTF_BUFFER_SIZE]
  | .finite q0 =>
      obtain ⟨hlo, hhi⟩ := hfin q0 rfl
      simp only [u_ftoa]
      set prec := ftoaClampPrec p with hprec
      set sgn : List Char := if q0 < 0 then ['-'] else [] with hsgndef
      set q : ℚ := if q0 < 0 then -q0 else q0 with hq
      have hq0 : 0 ≤ q := by
        rw [hq]
        split_ifs with hneg
        · linarith
        · linarith
      have hqlt : q < 2 ^ 63 := by
        rw [hq]
        split_ifs with hneg
        · linarith
        · exact hhi
      have htr : ratTrunc q = ⌊q⌋ := by
        simp [ratTrunc, not_lt.mpr hq0]
      have hip0 : 0 ≤ ratTrunc q := by
        rw [htr]
        exact Int.le_floor.mpr (by exact_mod_cast hq0)
      have hiplt : ratTrunc q < 2 ^ 63 := by
        rw [htr]
        exact Int.floor_lt.mpr (by exact_mod_cast hqlt)
      have hitoa : (u_itoa (ratTrunc q) 10 false).length ≤ 19 := by
        simp only [u_itoa]
        rw [if_neg (by norm_num), if_neg (fun h => absurd h.1 (not_lt.mpr hip0))]
        have hmod : ratTrunc q % (2 ^ 64 : Int) = ratTrunc q :=
          Int.emod_eq_of_lt hip0 (by omega)
        rw [hmod]
        refine u_utoa_length _ 10 19 false (by norm_num) (by norm_num) (by norm_num) ?_
        have h10 : ((ratTrunc q).toNat : Int) < 10 ^ 19 := by
          rw [Int.toNat_of_nonneg hip0]
          calc ratTrunc q < 2 ^ 63 := hiplt
            _ < 10 ^ 19 := by norm_num
        exact_mod_cast h10
      have hsgn : sgn.length ≤ 1 := by
        rw [hsgndef]
        split_ifs <;> simp
      split_ifs with hp
      · refine ftoaTail_length _ _ _ ?_
        simp only [List.length_append, List.length_cons, List.length_nil,
          UPRINTF_BUFFER_SIZE]
        omega
      · simp only [List.length_append, UPRINTF_BUFFER_SIZE]
        omega

/-- C8 (witness): the buffer bound instantiated at the finite value 3
with requested precision 40. -/
theorem claim_C8_witness :
    (∀ q : ℚ, UDouble.finite 3 = .finite q → -(2 ^ 63) < q ∧ q < 2 ^ 63) ∧
      ((u_ftoa (.finite 3) 40 '.').length ≤ UPRINTF_BUFFER_SIZE - 1 ∧
        ftoaClampPrec 40 ≤ (UPRINTF_BUFFER_SIZE : Int) - 16) :=
  ⟨fun q hq => by
    cases hq
    exact ⟨by decide, by decide⟩,
    claim_C8 (.finite 3) 40 '.' (fun q hq => by
      cases hq
      exact ⟨by decide, by decide⟩)⟩

theorem accurate_gs0 : AccurateHandlers gs0 := by
  intro s hs hf hsh f a
  have hrep : s = ⟨Char.ofNat 0, none⟩ := by
    simpa [gs0, table0] using List.eq_of_mem_replicate hs
  rw [hrep] at hsh
  simp at hsh

/-- C6 (amended): `u_vprintf` and `u_printf` return a negative value
whenever the sink callback or the format string is null; and provided
every registered custom handler returns exactly the number of
characters it emitted (in particular never a negative count), the call
on a non-null sink and format returns the total number of characters
emitted, which is non-negative — so no malformed or unknown directive
can produce a negative result. -/
theorem claim_C6_amended (gs : GState) (fmtL : List Char) (args : List UArg)
    (hacc : AccurateHandlers gs) :
    (u_vprintf gs false (some fmtL) args).ret < 0 ∧
      (u_vprintf gs true none args).ret < 0 ∧
      (u_printf gs false (some fmtL) args).ret < 0 ∧
      (u_printf gs true none args).ret < 0 ∧
      (u_vprintf gs true (some fmtL) args).ret
        = ((u_vprintf gs true (some fmtL) args).out.length : Int) ∧
      0 ≤ (u_vprintf gs true (some fmtL) args).ret := by
  have hmain : (u_vprintf gs true (some fmtL) args).ret
      = ((u_vprintf gs true (some fmtL) args).out.length : Int) := by
    simp only [u_vprintf, if_pos]
    exact vprintfGo_ret_len gs hacc fmtL.length fmtL args (le_refl _)
  refine ⟨by simp [u_vprintf], by simp [u_vprintf], by simp [u_printf, u_vprintf],
    by simp [u_printf, u_vprintf], hmain, ?_⟩
  rw [hmain]
  positivity

/-- C6 (witness): the amended statement instantiated at the initial
state (no handlers registered, hence vacuously accurate) and the
format `"x%d"` with argument 7. -/
theorem claim_C6_witness :
    AccurateHandlers gs0 ∧
      ((u_vprintf gs0 false (some "x%d".toList) [.int 7]).ret < 0 ∧
        (u_vprintf gs0 true none [.int 7]).ret < 0 ∧
        (u_printf gs0 false (some "x%d".toList) [.int 7]).ret < 0 ∧
        (u_printf gs0 true none [.int 7]).ret < 0 ∧
        (u_vprintf gs0 true (some "x%d".toList) [.int 7]).ret
          = ((u_vprintf gs0 true (some "x%d".toList) [.int 7]).out.length : Int) ∧
        0 ≤ (u_vprintf gs0 true (some "x%d".toList) [.int 7]).ret) :=
  ⟨accurate_gs0, claim_C6_amended gs0 "x%d".toList [.int 7] accurate_gs0⟩

theorem numericPads_neg1 (fl : Flags) (nd sl : Int) (hnd : 0 ≤ nd) (hsl : 0 ≤ sl) :
    numericPads fl (-1) (-1) nd sl = (0, 0) := by
  simp only [numericPads]
  split_ifs <;> simp <;> omega

theorem numericOut_neg1 (fl fl' : Flags) (buf : List Char) (sign : Bool)
    (hleft : fl.leftAlign = fl'.leftAlign) (hforce : fl.forceSign = fl'.forceSign)
    (hspace : fl.spaceSign = fl'.spaceSign) :
    numericOut fl (-1) (-1) buf sign = numericOut fl' (-1) (-1) buf sign := by
  have e1 : numericPads fl (-1) (-1) (buf.length : Int)
      (if sign then 1 else if fl.forceSign then 1 else if fl.spaceSign then 1 else 0)
      = (0, 0) :=
    numericPads_neg1 _ _ _ (by omega) (by split_ifs <;> omega)
  have e2 : numericPads fl' (-1) (-1) (buf.length : Int)
      (if sign then 1 else if fl'.forceSign then 1 else if fl'.spaceSign then 1 else 0)
      = (0, 0) :=
    numericPads_neg1 _ _ _ (by omega) (by split_ifs <;> omega)
  simp only [numericOut]
  rw [e1, e2]
  simp only [hleft, hforce, hspace]

/-- The default (unknown-specifier) branch of the builtin dispatch:
it emits `%` followed by the specifier character alone. -/
theorem dispatch_default (gs : GState) (spec : Char) (fl : Flags)
    (width precision lm : Int) (args : List UArg) (h : spec ∉ builtinSpecifiers) :
    dispatchBuiltin gs spec fl width precision lm args = ⟨['%', spec], 2, args, []⟩ := by
  simp only [builtinSpecifiers, List.mem_cons, List.not_mem_nil, or_false, not_or] at h
  obtain ⟨h1, h2, h3, h4, h5, h6, h7, h8, h9, h10, h11, h12, h13⟩ := h
  simp [dispatchBuiltin, h1, h2, h3, h4, h5, h6, h7, h8, h9, h10, h11, h12, h13]

/-- C4 (amended): an unknown `%`-specifier (no builtin, no registered
handler) makes the engine emit `%` followed by the specifier character
only — the consumed flag/width/precision/length text is dropped; when
the format string ends inside a `%`-sequence that had at least one
character after the `%`, the engine emits `%` followed by the consumed
specifier text verbatim; a `%` that is the last character of the format
emits nothing; processing always continues without error (the returned
count is never negative on these paths).  In particular `"%K"` with no
handler for `K` emits exactly `"%K"`. -/
theorem claim_C4_amended :
    (∀ (gs : GState) (fmt : List Char) (args : List UArg) (spec : Char) (rest2 : List Char),
      fmt ≠ [] →
      (parseMods fmt args).rest = spec :: rest2 →
      findHandler gs.handlers spec = none →
      spec ∉ builtinSpecifiers →
      u_parse_format gs fmt args
        = ⟨['%', spec], 2, rest2, (parseMods fmt args).args, []⟩) ∧
    (∀ (gs : GState) (fmt : List Char) (args : List UArg),
      fmt ≠ [] →
      (parseMods fmt args).rest = [] →
      u_parse_format gs fmt args
        = ⟨'%' :: fmt, 1 + (fmt.length : Int), [], (parseMods fmt args).args, []⟩) ∧
    u_vprintf gs0 true (some "%K".toList) [] = ⟨"%K".toList, 2, []⟩ ∧
    (∀ (gs : GState) (args : List UArg),
      u_vprintf gs true (some ['%']) args = ⟨[], 0, []⟩) := by
  refine ⟨?_, ?_, by decide, ?_⟩
  · intro gs fmt args spec rest2 hne hrest hfind hnb
    match fmt, hne with
    | c :: fmt', _ =>
        simp only [u_parse_format]
        split
        · rename_i hrest0
          rw [hrest0] at hrest
          exact absurd hrest (by simp)
        · rename_i spec' rest2' hrest'
          rw [hrest] at hrest'
          injection hrest' with hs1 hs2
          subst hs1
          subst hs2
          split
          · rename_i hf hfind'
            rw [hfind] at hfind'
            exact absurd hfind' (by simp)
          · rw [dispatch_default gs spec _ _ _ _ _ hnb]
  · intro gs fmt args hne hrest
    match fmt, hne with
    | c :: fmt', _ =>
        simp only [u_parse_format]
        split
        · rfl
        · rename_i spec' rest2' hrest'
          rw [hrest] at hrest'
          exact absurd hrest' (by simp)
  · intro gs args
    simp [u_vprintf, vprintfGo]

/-- C4 (witness): the unknown-specifier path instantiated at `"%5K"`
(parse input `"5K"`): the width text `5` is consumed and dropped, and
`"%K"` is emitted. -/
theorem claim_C4_witness :
    ("5K".toList ≠ [] ∧ (parseMods "5K".toList []).rest = 'K' :: [] ∧
      findHandler gs0.handlers 'K' = none ∧ 'K' ∉ builtinSpecifiers) ∧
      u_parse_format gs0 "5K".toList []
        = ⟨['%', 'K'], 2, [], (parseMods "5K".toList []).args, []⟩ :=
  ⟨⟨by decide, by decide, rfl, by decide⟩,
    claim_C4_amended.1 gs0 "5K".toList [] 'K' [] (by decide) (by decide) rfl (by decide)⟩

theorem numericPads_spec (fl : Flags) (w p nd sl : Int) :
    numericPads fl w p nd sl
      = ((if p > nd then p - nd else 0) +
          (if fl.zeroPad ∧ ¬fl.leftAlign ∧ p < 0 then
            (if w > nd + sl + (if p > nd then p - nd else 0) then
              w - (nd + sl + (if p > nd then p - nd else 0)) else 0)
          else 0),
        if fl.zeroPad ∧ ¬fl.leftAlign ∧ p < 0 then 0
        else (if w > nd + sl + (if p > nd then p - nd else 0) then
            w - (nd + sl + (if p > nd then p - nd else 0)) else 0)) := by
  simp only [numericPads]
  split_ifs <;> simp <;> omega

/-- C5 (amended): the shared numeric path emits, in this fixed order:
left space padding, the sign character — a forced `+` or space for a
non-negative value only, a negative value's `-` being already the
first character of the digit text — zero padding, the digit text, and
right space padding only when left-aligned; with the zero-pad flag
set, left-align clear and no explicit precision, the space padding is
converted to zero padding placed after the forced sign (but before
the whole digit text, `-` included).  `"%05d"` with 42 emits
`"00042"` and `"%-5d"` with 42 emits `"42   "`. -/
theorem claim_C5_amended :
    (∀ (fl : Flags) (width precision : Int) (buf : List Char) (sign : Bool),
      (numericOut fl width precision buf sign).1
        = numericOutOrdered fl width precision buf sign) ∧
    u_vprintf gs0 true (some "%05d".toList) [.int 42] = ⟨"00042".toList, 5, []⟩ ∧
    u_vprintf gs0 true (some "%-5d".toList) [.int 42] = ⟨"42   ".toList, 5, []⟩ := by
  refine ⟨?_, by decide, by decide⟩
  intro fl width precision buf sign
  have hsl : (if sign then (1 : Int) else if fl.forceSign then 1 else if fl.spaceSign then 1
        else 0)
      = (if sign ∨ fl.forceSign ∨ fl.spaceSign then (1 : Int) else 0) := by
    split_ifs <;> simp_all
  simp only [numericOut, numericOutOrdered, hsl, numericPads_spec]

/-- C9: a width literal that evaluates to 0 (in particular, absent
width digits) yields the "unspecified" sentinel -1, and formatting
`"%0d"` (where the 0 is consumed as the zero-pad flag and the width is
absent) behaves exactly like `"%d"` for every integer argument. -/
theorem claim_C9 :
    (∀ (fl : Flags) (fmt : List Char) (args : List UArg),
      (digitLoop 0 fmt).1 = 0 → fmt.head? ≠ some '*' →
      (parseWidth fl fmt args).2.1 = -1) ∧
    (∀ v : Int,
      u_vprintf gs0 true (some "%0d".toList) [.int v]
        = u_vprintf gs0 true (some "%d".toList) [.int v]) := by
  constructor
  · intro fl fmt args hz hstar
    unfold parseWidth
    split
    · simp at hstar
    · simp [hz]
  · intro v
    have h0 : u_parse_format gs0 ['0', 'd'] [.int v]
        = ⟨(numericOut ⟨false, false, false, true, false, false, false⟩ (-1) (-1)
              (u_itoa (signedCast 32 v) 10 false) (decide (signedCast 32 v < 0))).1,
           (numericOut ⟨false, false, false, true, false, false, false⟩ (-1) (-1)
              (u_itoa (signedCast 32 v) 10 false) (decide (signedCast 32 v < 0))).2,
           [], [], []⟩ := rfl
    have h1 : u_parse_format gs0 ['d'] [.int v]
        = ⟨(numericOut ⟨false, false, false, false, false, false, false⟩ (-1) (-1)
              (u_itoa (signedCast 32 v) 10 false) (decide (signedCast 32 v < 0))).1,
           (numericOut ⟨false, false, false, false, false, false, false⟩ (-1) (-1)
              (u_itoa (signedCast 32 v) 10 false) (decide (signedCast 32 v < 0))).2,
           [], [], []⟩ := rfl
    have hno : numericOut ⟨false, false, false, true, false, false, false⟩ (-1) (-1)
          (u_itoa (signedCast 32 v) 10 false) (decide (signedCast 32 v < 0))
        = numericOut ⟨false, false, false, false, false, false, false⟩ (-1) (-1)
          (u_itoa (signedCast 32 v) 10 false) (decide (signedCast 32 v < 0)) :=
      numericOut_neg1 _ _ _ _ rfl rfl rfl
    have hretnn : ¬(u_parse_format gs0 ['0', 'd'] [.int v]).ret < 0 := by
      rw [parse_ret_len gs0 accurate_gs0 ['0', 'd'] [.int v]]
      omega
    have hretnn' : ¬(u_parse_format gs0 ['d'] [.int v]).ret < 0 := by
      rw [parse_ret_len gs0 accurate_gs0 ['d'] [.int v]]
      omega
    show vprintfGo gs0 3 ('%' :: ['0', 'd']) [.int v]
      = vprintfGo gs0 2 ('%' :: ['d']) [.int v]
    simp only [vprintfGo]
    simp [hretnn, hretnn']
    rw [h0, h1, hno]
    exact ⟨rfl, rfl, rfl⟩

/-- C9 (witness): the width-parse clause instantiated at the format
tail `"d"` (no width digits), together with the behavioral equality at
the argument 42. -/
theorem claim_C9_witness :
    ((digitLoop 0 "d".toList).1 = 0 ∧ "d".toList.head? ≠ some '*' ∧
      (parseWidth {} "d".toList []).2.1 = -1) ∧
      u_vprintf gs0 true (some "%0d".toList) [.int 42]
        = u_vprintf gs0 true (some "%d".toList) [.int 42] :=
  ⟨⟨by decide, by decide, claim_C9.1 {} "d".toList [] (by decide) (by decide)⟩,
    claim_C9.2 42⟩

end Uprintf
